import Mathlib

/-!
Verification of the task-manager core (src/task_manager.py): the `Task`
entity (date parsing, status transitions, serialization) and the
`TaskManager` store (load/save, id assignment, queries, statistics),
modelled as a shallow embedding.  Strings are modelled as Lean `String`
(Python compares strings by code point, as Lean does on `Char`);
`datetime.datetime` values are records of numeric fields; JSON documents
are modelled at the level the code observes them (records with optional
fields); Python exceptions become explicit `Except`/outcome values.
-/

/-! ### ASCII digit helpers (model of the digit handling inside
`strptime`/`fromisoformat`/`isoformat`) -/

def isDigitChar (c : Char) : Bool := 48 ≤ c.toNat && c.toNat ≤ 57

def digitsToNatAux : Nat → List Char → Nat
  | a, [] => a
  | a, c :: cs => digitsToNatAux (a * 10 + (c.toNat - 48)) cs

theorem digitsToNatAux_nil (a : Nat) : digitsToNatAux a [] = a := rfl

theorem digitsToNatAux_cons (a : Nat) (c : Char) (cs : List Char) :
    digitsToNatAux a (c :: cs) = digitsToNatAux (a * 10 + (c.toNat - 48)) cs := rfl

def digitsToNat (l : List Char) : Nat := digitsToNatAux 0 l

def digitChar (n : Nat) : Char :=
  match n % 10 with
  | 0 => '0'
  | 1 => '1'
  | 2 => '2'
  | 3 => '3'
  | 4 => '4'
  | 5 => '5'
  | 6 => '6'
  | 7 => '7'
  | 8 => '8'
  | _ => '9'

def padNat : Nat → Nat → List Char
  | 0, _ => []
  | k + 1, n => padNat k (n / 10) ++ [digitChar n]

theorem toNat_digitChar (n : Nat) : (digitChar n).toNat = 48 + n % 10 := by
  have h : n % 10 < 10 := Nat.mod_lt _ (by omega)
  unfold digitChar
  generalize n % 10 = k at h ⊢
  interval_cases k <;> decide

theorem isDigitChar_digitChar (n : Nat) : isDigitChar (digitChar n) = true := by
  have h : n % 10 < 10 := Nat.mod_lt _ (by omega)
  unfold isDigitChar
  rw [toNat_digitChar]
  simp only [Bool.and_eq_true, decide_eq_true_eq]
  omega

theorem digitsToNatAux_append (a : Nat) (l m : List Char) :
    digitsToNatAux a (l ++ m) = digitsToNatAux (digitsToNatAux a l) m := by
  induction l generalizing a with
  | nil => rfl
  | cons c cs ih => rw [List.cons_append, digitsToNatAux_cons, digitsToNatAux_cons, ih]

theorem digitsToNatAux_padNat (k : Nat) (n a : Nat) :
    digitsToNatAux a (padNat k n) = a * 10 ^ k + n % 10 ^ k := by
  induction k generalizing n a with
  | zero => simp [padNat, digitsToNatAux_nil, Nat.mod_one]
  | succ k ih =>
    rw [padNat, digitsToNatAux_append, ih]
    simp only [digitsToNatAux_cons, digitsToNatAux_nil, toNat_digitChar]
    have h1 : n % 10 ^ (k + 1) = n % 10 + 10 * (n / 10 % 10 ^ k) := by
      have := @Nat.mod_mul 10 (10 ^ k) n
      simpa [Nat.pow_succ, Nat.mul_comm] using this
    have h2 : 48 + n % 10 - 48 = n % 10 := by omega
    rw [h2, h1]
    ring

theorem digitsToNat_padNat (k n : Nat) : digitsToNat (padNat k n) = n % 10 ^ k := by
  simp [digitsToNat, digitsToNatAux_padNat]

theorem padNat_length (k n : Nat) : (padNat k n).length = k := by
  induction k generalizing n with
  | zero => rfl
  | succ k ih => simp [padNat, ih]

theorem padNat_two (n : Nat) : padNat 2 n = [digitChar (n / 10), digitChar n] := by
  show padNat 1 (n / 10) ++ [digitChar n] = _
  show (padNat 0 (n / 10 / 10) ++ [digitChar (n / 10)]) ++ [digitChar n] = _
  simp [padNat]

theorem padNat_four (n : Nat) :
    padNat 4 n = [digitChar (n / 1000), digitChar (n / 100), digitChar (n / 10), digitChar n] := by
  show padNat 3 (n / 10) ++ [digitChar n] = _
  show (padNat 2 (n / 10 / 10) ++ [digitChar (n / 10)]) ++ [digitChar n] = _
  rw [padNat_two]
  simp only [Nat.div_div_eq_div_mul, List.append_assoc, List.singleton_append]
  norm_num

theorem padNat_six (n : Nat) :
    padNat 6 n = [digitChar (n / 100000), digitChar (n / 10000), digitChar (n / 1000),
      digitChar (n / 100), digitChar (n / 10), digitChar n] := by
  show padNat 5 (n / 10) ++ [digitChar n] = _
  show (padNat 4 (n / 10 / 10) ++ [digitChar (n / 10)]) ++ [digitChar n] = _
  rw [padNat_four]
  simp only [Nat.div_div_eq_div_mul, List.append_assoc, List.singleton_append]
  norm_num

theorem digitsToNat_two (n : Nat) :
    digitsToNat [digitChar (n / 10), digitChar n] = n % 100 := by
  have := digitsToNat_padNat 2 n
  rw [padNat_two] at this
  simpa using this

theorem digitsToNat_four (n : Nat) :
    digitsToNat [digitChar (n / 1000), digitChar (n / 100), digitChar (n / 10), digitChar n]
      = n % 10000 := by
  have := digitsToNat_padNat 4 n
  rw [padNat_four] at this
  simpa using this

theorem digitsToNat_six (n : Nat) :
    digitsToNat [digitChar (n / 100000), digitChar (n / 10000), digitChar (n / 1000),
      digitChar (n / 100), digitChar (n / 10), digitChar n] = n % 1000000 := by
  have := digitsToNat_padNat 6 n
  rw [padNat_six] at this
  simpa using this

/-! ### DateTime: model of `datetime.datetime` (time-zone-naive) -/

structure DateTime where
  year : Nat
  month : Nat
  day : Nat
  hour : Nat
  minute : Nat
  second : Nat
  microsecond : Nat
deriving DecidableEq

def isLeapYear (y : Nat) : Bool := y % 4 = 0 && (y % 100 ≠ 0 || y % 400 = 0)

def daysInMonth (y m : Nat) : Nat :=
  if m = 2 then (if isLeapYear y then 29 else 28)
  else if m = 4 || m = 6 || m = 9 || m = 11 then 30
  else 31

/-- The field ranges `datetime.datetime` enforces at construction; every
Python datetime object satisfies them. -/
def DateTime.Valid (d : DateTime) : Prop :=
  1 ≤ d.year ∧ d.year ≤ 9999 ∧ 1 ≤ d.month ∧ d.month ≤ 12 ∧
  1 ≤ d.day ∧ d.day ≤ daysInMonth d.year d.month ∧
  d.hour ≤ 23 ∧ d.minute ≤ 59 ∧ d.second ≤ 59 ∧ d.microsecond ≤ 999999

instance (d : DateTime) : Decidable d.Valid := by
  unfold DateTime.Valid
  infer_instance

def DateTime.toList (d : DateTime) : List Nat :=
  [d.year, d.month, d.day, d.hour, d.minute, d.second, d.microsecond]

/-- Lexicographic strict comparison on equal-length Nat lists: the model of
Python's tuple comparison underlying `datetime` ordering. -/
def natListLt : List Nat → List Nat → Bool
  | _, [] => false
  | [], _ :: _ => true
  | a :: as, b :: bs => decide (a < b) || (decide (a = b) && natListLt as bs)

/-- Python `x < y` on datetimes: field-lexicographic. -/
def DateTime.ltb (x y : DateTime) : Bool := natListLt x.toList y.toList

/-- Python `x <= y` on datetimes (total order, so `¬ (y < x)`). -/
def DateTime.leb (x y : DateTime) : Bool := !DateTime.ltb y x

/-- `datetime.max` = 9999-12-31 23:59:59.999999. -/
def dtMax : DateTime := ⟨9999, 12, 31, 23, 59, 59, 999999⟩

theorem natListLt_irrefl (l : List Nat) : natListLt l l = false := by
  induction l with
  | nil => rfl
  | cons a as ih => simp [natListLt, ih]

theorem natListLt_asymm (l m : List Nat) :
    natListLt l m = true → natListLt m l = false := by
  induction l generalizing m with
  | nil =>
    intro h
    cases m with
    | nil => simp [natListLt] at h
    | cons b bs => rfl
  | cons a as ih =>
    intro h
    cases m with
    | nil => simp [natListLt] at h
    | cons b bs =>
      simp only [natListLt, Bool.or_eq_true, Bool.and_eq_true, decide_eq_true_eq] at h ⊢
      rcases h with h | ⟨rfl, h⟩
      · simp only [Bool.or_eq_false_iff, Bool.and_eq_false_iff]
        constructor
        · simp only [decide_eq_false_iff_not]
          omega
        · left
          simp only [decide_eq_false_iff_not]
          omega
      · simp [natListLt_irrefl, ih _ h]

theorem natListLt_trans (l m k : List Nat) :
    natListLt l m = true → natListLt m k = true → natListLt l k = true := by
  induction l generalizing m k with
  | nil =>
    intro h1 h2
    cases m with
    | nil => simp [natListLt] at h1
    | cons b bs =>
      cases k with
      | nil => simp [natListLt] at h2
      | cons c cs => rfl
  | cons a as ih =>
    intro h1 h2
    cases m with
    | nil => simp [natListLt] at h1
    | cons b bs =>
      cases k with
      | nil => simp [natListLt] at h2
      | cons c cs =>
        simp only [natListLt, Bool.or_eq_true, Bool.and_eq_true, decide_eq_true_eq] at h1 h2 ⊢
        rcases h1 with h1 | ⟨rfl, h1⟩
        · rcases h2 with h2 | ⟨rfl, h2⟩
          · left; omega
          · left; exact h1
        · rcases h2 with h2 | ⟨rfl, h2⟩
          · left; exact h2
          · right; exact ⟨rfl, ih _ _ h1 h2⟩

theorem natListLt_total (l m : List Nat) :
    natListLt l m = true ∨ natListLt m l = true ∨ l = m := by
  induction l generalizing m with
  | nil =>
    cases m with
    | nil => right; right; rfl
    | cons b bs => left; rfl
  | cons a as ih =>
    cases m with
    | nil => right; left; rfl
    | cons b bs =>
      rcases Nat.lt_trichotomy a b with h | h | h
      · left; simp [natListLt, h]
      · subst h
        rcases ih bs with h' | h' | h'
        · left; simp [natListLt, h']
        · right; left; simp [natListLt, h']
        · right; right; rw [h']
      · right; left; simp [natListLt, h]

theorem DateTime.leb_total (x y : DateTime) :
    DateTime.leb x y = true ∨ DateTime.leb y x = true := by
  unfold DateTime.leb DateTime.ltb
  rcases natListLt_total x.toList y.toList with h | h | h
  · left
    simp [natListLt_asymm _ _ h]
  · right
    simp [natListLt_asymm _ _ h]
  · left
    simp [h, natListLt_irrefl]

theorem DateTime.leb_trans (x y z : DateTime) :
    DateTime.leb x y = true → DateTime.leb y z = true → DateTime.leb x z = true := by
  unfold DateTime.leb DateTime.ltb
  intro h1 h2
  simp only [Bool.not_eq_true'] at h1 h2 ⊢
  by_contra hc
  simp only [Bool.not_eq_false] at hc
  rcases natListLt_total y.toList z.toList with h | h | h
  · rw [natListLt_trans _ _ _ h hc] at h1
    exact Bool.noConfusion h1
  · rw [h] at h2
    exact Bool.noConfusion h2
  · rw [h] at h1
    rw [h1] at hc
    exact Bool.noConfusion hc

/-! ### `datetime.isoformat` and `datetime.fromisoformat` -/

/-- `datetime.isoformat()`: `YYYY-MM-DDTHH:MM:SS`, with `.ffffff` appended
exactly when the microsecond field is nonzero. -/
def DateTime.isoformatChars (d : DateTime) : List Char :=
  padNat 4 d.year ++ '-' :: (padNat 2 d.month ++ '-' :: (padNat 2 d.day ++ 'T' ::
    (padNat 2 d.hour ++ ':' :: (padNat 2 d.minute ++ ':' :: (padNat 2 d.second ++
      (if d.microsecond = 0 then [] else '.' :: padNat 6 d.microsecond))))))

def DateTime.isoformat (d : DateTime) : String := String.mk d.isoformatChars

/-- Fractional-second part after the dot: exactly 3 or 6 digits. -/
def parseFrac : List Char → Option Nat
  | [a, b, c] =>
    if isDigitChar a && isDigitChar b && isDigitChar c then
      some (digitsToNat [a, b, c] * 1000)
    else none
  | [a, b, c, d, e, f] =>
    if isDigitChar a && isDigitChar b && isDigitChar c && isDigitChar d
        && isDigitChar e && isDigitChar f then
      some (digitsToNat [a, b, c, d, e, f])
    else none
  | _ => none

/-- Optional `:SS[.ffffff]` tail of an isoformat time. -/
def parseSecFrac : List Char → Option (Nat × Nat)
  | [] => some (0, 0)
  | c :: s1 :: s2 :: rest =>
    if c = ':' && isDigitChar s1 && isDigitChar s2 && digitsToNat [s1, s2] ≤ 59 then
      match rest with
      | [] => some (digitsToNat [s1, s2], 0)
      | dot :: fs =>
        if dot = '.' then (parseFrac fs).map (fun u => (digitsToNat [s1, s2], u))
        else none
    else none
  | _ => none

/-- `HH:MM[:SS[.ffffff]]` part of an isoformat string. -/
def parseHMS : List Char → Option (Nat × Nat × Nat × Nat)
  | h1 :: h2 :: c :: n1 :: n2 :: rest =>
    if isDigitChar h1 && isDigitChar h2 && c = ':' && isDigitChar n1 && isDigitChar n2
        && digitsToNat [h1, h2] ≤ 23 && digitsToNat [n1, n2] ≤ 59 then
      (parseSecFrac rest).map (fun p => (digitsToNat [h1, h2], digitsToNat [n1, n2], p.1, p.2))
    else none
  | _ => none

/-- `datetime.fromisoformat`: `YYYY-MM-DD[*HH:MM[:SS[.ffffff]]]` (the format
emitted by `isoformat`); anything else raises `ValueError`, modelled as
`none`. -/
def fromisoChars : List Char → Option DateTime
  | y1 :: y2 :: y3 :: y4 :: c1 :: m1 :: m2 :: c2 :: d1 :: d2 :: rest =>
    if isDigitChar y1 && isDigitChar y2 && isDigitChar y3 && isDigitChar y4 && c1 = '-'
        && isDigitChar m1 && isDigitChar m2 && c2 = '-' && isDigitChar d1 && isDigitChar d2 then
      let y := digitsToNat [y1, y2, y3, y4]
      let mo := digitsToNat [m1, m2]
      let dy := digitsToNat [d1, d2]
      if 1 ≤ y && 1 ≤ mo && mo ≤ 12 && 1 ≤ dy && dy ≤ daysInMonth y mo then
        match rest with
        | [] => some ⟨y, mo, dy, 0, 0, 0, 0⟩
        | _ :: t => (parseHMS t).map (fun q => ⟨y, mo, dy, q.1, q.2.1, q.2.2.1, q.2.2.2⟩)
      else none
    else none
  | _ => none

def fromisoformat (s : String) : Option DateTime := fromisoChars s.data

/-! ### `Task._parse_date`: `strptime` with formats `%Y-%m-%d` and `%d/%m/%Y`.

CPython's `strptime` compiles each format into an anchored regex: `%Y` is
exactly four digits, `%m` and `%d` are one or two digits within range
(month 1-12, day 1-31), and the day is then checked against the month
length by the `datetime` constructor. -/

def yearField (l : List Char) : Option Nat :=
  if l.length = 4 && l.all isDigitChar && 1 ≤ digitsToNat l then
    some (digitsToNat l)
  else none

def monthField (l : List Char) : Option Nat :=
  if (l.length = 1 || l.length = 2) && l.all isDigitChar
      && 1 ≤ digitsToNat l && digitsToNat l ≤ 12 then
    some (digitsToNat l)
  else none

def dayField (l : List Char) : Option Nat :=
  if (l.length = 1 || l.length = 2) && l.all isDigitChar
      && 1 ≤ digitsToNat l && digitsToNat l ≤ 31 then
    some (digitsToNat l)
  else none

/-- `datetime(year, month, day)`: rejects a day beyond the month length. -/
def mkDate (y mo dy : Nat) : Option DateTime :=
  if dy ≤ daysInMonth y mo then some ⟨y, mo, dy, 0, 0, 0, 0⟩ else none

def ymdOf (ys ms ds : List Char) : Option DateTime :=
  match yearField ys, monthField ms, dayField ds with
  | some y, some mo, some dy => mkDate y mo dy
  | _, _, _ => none

def dmyOf (ds ms ys : List Char) : Option DateTime :=
  match dayField ds, monthField ms, yearField ys with
  | some dy, some mo, some y => mkDate y mo dy
  | _, _, _ => none

/-- `datetime.strptime(s, "%Y-%m-%d")` (`none` = `ValueError`). -/
def strptime_Ymd (s : String) : Option DateTime :=
  match List.splitOn '-' s.data with
  | [ys, ms, ds] => ymdOf ys ms ds
  | _ => none

/-- `datetime.strptime(s, "%d/%m/%Y")` (`none` = `ValueError`). -/
def strptime_dmY (s : String) : Option DateTime :=
  match List.splitOn '/' s.data with
  | [ds, ms, ys] => dmyOf ds ms ys
  | _ => none

/-- `Task._parse_date`: dispatches on which separator occurs in the text,
catching `ValueError` (so a failed parse is `None`, never an exception). -/
def parse_date (s : String) : Option DateTime :=
  if '-' ∈ s.data then strptime_Ymd s
  else if '/' ∈ s.data then strptime_dmY s
  else none

/-- The due-date handling in `Task.__init__`:
`self._parse_date(due_date) if due_date else None` — `None` and the empty
string are falsy and yield no due date. -/
def parseDateField : Option String → Option DateTime
  | none => none
  | some s => if s.data = [] then none else parse_date s

theorem daysInMonth_le (y m : Nat) : daysInMonth y m ≤ 31 := by
  unfold daysInMonth
  split
  · split <;> omega
  · split <;> omega

theorem daysInMonth_pos (y m : Nat) : 1 ≤ daysInMonth y m := by
  unfold daysInMonth
  split
  · split <;> omega
  · split <;> omega

theorem fromisoformat_isoformat (d : DateTime) (hv : d.Valid) :
    fromisoformat d.isoformat = some d := by
  obtain ⟨y, mo, dy, hr, mi, sec, us⟩ := d
  simp only [DateTime.Valid] at hv
  obtain ⟨h1, h2, h3, h4, h5, h6, h7, h8, h9, h10⟩ := hv
  have ey : y % 10000 = y := Nat.mod_eq_of_lt (by omega)
  have emo : mo % 100 = mo := Nat.mod_eq_of_lt (by omega)
  have edy : dy % 100 = dy := Nat.mod_eq_of_lt (by have := daysInMonth_le y mo; omega)
  have ehr : hr % 100 = hr := Nat.mod_eq_of_lt (by omega)
  have emi : mi % 100 = mi := Nat.mod_eq_of_lt (by omega)
  have esec : sec % 100 = sec := Nat.mod_eq_of_lt (by omega)
  have eus : us % 1000000 = us := Nat.mod_eq_of_lt (by omega)
  unfold fromisoformat DateTime.isoformat DateTime.isoformatChars
  simp only [padNat_four, padNat_two, padNat_six, List.cons_append, List.nil_append,
    List.append_assoc]
  by_cases hus : us = 0
  · simp only [hus, if_pos rfl, reduceIte, List.append_nil]
    simp only [fromisoChars, isDigitChar_digitChar, Bool.true_and, Bool.and_true,
      decide_eq_true_eq]
    rw [if_pos (by simp)]
    simp only [digitsToNat_four, digitsToNat_two, ey, emo, edy]
    rw [if_pos (by simp only [Bool.and_eq_true, decide_eq_true_eq, true_and, and_true]; omega)]
    simp only [parseHMS, isDigitChar_digitChar, Bool.true_and, Bool.and_true,
      decide_eq_true_eq, digitsToNat_two, ehr, emi]
    rw [if_pos (by simp only [Bool.and_eq_true, decide_eq_true_eq, true_and, and_true]; omega)]
    simp only [parseSecFrac, isDigitChar_digitChar, Bool.true_and, Bool.and_true,
      decide_eq_true_eq, digitsToNat_two, esec]
    rw [if_pos (by simp only [Bool.and_eq_true, decide_eq_true_eq, true_and, and_true]; omega)]
    simp [hus]
  · rw [if_neg hus]
    simp only [fromisoChars, isDigitChar_digitChar, Bool.true_and, Bool.and_true,
      decide_eq_true_eq]
    rw [if_pos (by simp)]
    simp only [digitsToNat_four, digitsToNat_two, ey, emo, edy]
    rw [if_pos (by simp only [Bool.and_eq_true, decide_eq_true_eq, true_and, and_true]; omega)]
    simp only [parseHMS, isDigitChar_digitChar, Bool.true_and, Bool.and_true,
      decide_eq_true_eq, digitsToNat_two, ehr, emi]
    rw [if_pos (by simp only [Bool.and_eq_true, decide_eq_true_eq, true_and, and_true]; omega)]
    simp only [parseSecFrac, isDigitChar_digitChar, Bool.true_and, Bool.and_true,
      decide_eq_true_eq, digitsToNat_two, esec]
    rw [if_pos (by simp only [Bool.and_eq_true, decide_eq_true_eq, true_and, and_true]; omega)]
    simp only [parseFrac, isDigitChar_digitChar, Bool.true_and, Bool.and_true,
      digitsToNat_six, eus]
    simp

/-! ### `parse_date` tries `%Y-%m-%d` first, then `%d/%m/%Y` -/

theorem all_digits_not_mem (l : List Char) (c : Char) (hall : l.all isDigitChar = true)
    (hc : isDigitChar c = false) : c ∉ l := by
  intro hmem
  rw [List.all_eq_true] at hall
  have := hall c hmem
  rw [hc] at this
  exact Bool.noConfusion this

theorem splitOn_eq_single_of_not_mem (c : Char) (l : List Char) (h : c ∉ l) :
    List.splitOn c l = [l] := by
  unfold List.splitOn
  apply List.splitOnP_eq_single
  intro x hx
  simp only [beq_iff_eq]
  intro hxc
  exact h (hxc ▸ hx)

theorem yearField_digits (l : List Char) (v : Nat) (h : yearField l = some v) :
    l.all isDigitChar = true := by
  unfold yearField at h
  split at h
  case isTrue hc =>
    simp only [Bool.and_eq_true, decide_eq_true_eq] at hc
    exact hc.1.2
  case isFalse => exact Option.noConfusion h

theorem monthField_digits (l : List Char) (v : Nat) (h : monthField l = some v) :
    l.all isDigitChar = true := by
  unfold monthField at h
  split at h
  case isTrue hc =>
    simp only [Bool.and_eq_true, decide_eq_true_eq] at hc
    exact hc.1.1.2
  case isFalse => exact Option.noConfusion h

theorem dayField_digits (l : List Char) (v : Nat) (h : dayField l = some v) :
    l.all isDigitChar = true := by
  unfold dayField at h
  split at h
  case isTrue hc =>
    simp only [Bool.and_eq_true, decide_eq_true_eq] at hc
    exact hc.1.1.2
  case isFalse => exact Option.noConfusion h

theorem strptime_Ymd_eq_none_of_no_dash (s : String) (h : Char.ofNat 45 ∉ s.data) :
    strptime_Ymd s = none := by
  unfold strptime_Ymd
  rw [splitOn_eq_single_of_not_mem _ _ h]

theorem strptime_dmY_eq_none_of_no_slash (s : String) (h : Char.ofNat 47 ∉ s.data) :
    strptime_dmY s = none := by
  unfold strptime_dmY
  rw [splitOn_eq_single_of_not_mem _ _ h]

theorem strptime_dmY_no_dash (s : String) (d : DateTime)
    (h : strptime_dmY s = some d) : Char.ofNat 45 ∉ s.data := by
  unfold strptime_dmY at h
  split at h
  case h_2 => exact Option.noConfusion h
  case h_1 ds ms ys hsp =>
    unfold dmyOf at h
    split at h
    case h_2 => exact Option.noConfusion h
    case h_1 dv mv yv hdv hmv hyv =>
      have hds := dayField_digits ds dv hdv
      have hms := monthField_digits ms mv hmv
      have hys := yearField_digits ys yv hyv
      have hdata : s.data = ds ++ Char.ofNat 47 :: (ms ++ Char.ofNat 47 :: ys) := by
        have hi := List.intercalate_splitOn s.data (Char.ofNat 47)
        rw [hsp] at hi
        rw [← hi]
        simp [List.intercalate, List.intersperse]
      rw [hdata]
      intro hmem
      simp only [List.mem_append, List.mem_cons] at hmem
      rcases hmem with hmem | hmem | hmem | hmem | hmem
      · exact all_digits_not_mem ds _ hds (by decide) hmem
      · exact absurd hmem (by decide)
      · exact all_digits_not_mem ms _ hms (by decide) hmem
      · exact absurd hmem (by decide)
      · exact all_digits_not_mem ys _ hys (by decide) hmem

theorem parse_date_eq_orElse (s : String) :
    parse_date s = (strptime_Ymd s).orElse (fun _ => strptime_dmY s) := by
  unfold parse_date
  by_cases hd : Char.ofNat 45 ∈ s.data
  · rw [if_pos (by exact_mod_cast hd)]
    cases hy : strptime_Ymd s with
    | some d => simp [Option.orElse]
    | none =>
      cases hm : strptime_dmY s with
      | none => simp [Option.orElse]
      | some d => exact absurd hd (strptime_dmY_no_dash s d hm)
  · rw [if_neg (by exact_mod_cast hd)]
    rw [strptime_Ymd_eq_none_of_no_dash s hd]
    by_cases hsl : Char.ofNat 47 ∈ s.data
    · rw [if_pos (by exact_mod_cast hsl)]
      simp [Option.orElse]
    · rw [if_neg (by exact_mod_cast hsl)]
      rw [strptime_dmY_eq_none_of_no_slash s hsl]
      simp [Option.orElse]

/-! ### Enumerations `Priority` and `Status` -/

inductive Priority
  | low
  | medium
  | high
  | urgent
deriving DecidableEq

/-- The `.value` display label of each `Priority` member. -/
def Priority.value : Priority → String
  | .low => "Low"
  | .medium => "Medium"
  | .high => "High"
  | .urgent => "Urgent"

/-- `Priority(s)`: look up a member by value; `none` models `ValueError`. -/
def Priority.ofValue : String → Option Priority
  | "Low" => some .low
  | "Medium" => some .medium
  | "High" => some .high
  | "Urgent" => some .urgent
  | _ => none

inductive Status
  | pending
  | in_progress
  | completed
  | cancelled
deriving DecidableEq

/-- The `.value` display label of each `Status` member. -/
def Status.value : Status → String
  | .pending => "Pending"
  | .in_progress => "In Progress"
  | .completed => "Completed"
  | .cancelled => "Cancelled"

/-- `Status(s)`: look up a member by value; `none` models `ValueError`. -/
def Status.ofValue : String → Option Status
  | "Pending" => some .pending
  | "In Progress" => some .in_progress
  | "Completed" => some .completed
  | "Cancelled" => some .cancelled
  | _ => none

theorem Priority.ofValue_value (p : Priority) : Priority.ofValue p.value = some p := by
  cases p <;> rfl

theorem Status.ofValue_value_self (s : Status) : Status.ofValue s.value = some s := by
  cases s <;> rfl

namespace TaskMgr

/-! ### The `Task` entity -/

structure Task where
  id : Option Int
  title : String
  description : String
  category : String
  priority : Priority
  status : Status
  created_at : DateTime
  updated_at : DateTime
  due_date : Option DateTime
  completed_at : Option DateTime
deriving DecidableEq

/-- `Task.__init__`: `id` is left unset (assigned by the manager), status
starts Pending, both timestamps are set to the construction time, and the
due-date text is parsed (falling back to no due date). -/
def Task.init (title description category : String) (priority : Priority)
    (due_date : Option String) (now : DateTime) : Task :=
  { id := none, title := title, description := description, category := category,
    priority := priority, status := Status.pending, created_at := now, updated_at := now,
    due_date := parseDateField due_date, completed_at := none }

/-- `Task.update_status`: set the status, refresh `updated_at`, and stamp
`completed_at` exactly when the new status is Completed. -/
def Task.update_status (t : Task) (new_status : Status) (now : DateTime) : Task :=
  { t with
    status := new_status,
    updated_at := now,
    completed_at := if new_status = Status.completed then some now else t.completed_at }

/-- `Task.is_overdue`: has a due date, is not Completed, and `now` is past
the due date. -/
def Task.is_overdue (t : Task) (now : DateTime) : Bool :=
  match t.due_date with
  | some d => if t.status ≠ Status.completed then DateTime.ltb d now else false
  | none => false

/-! ### Serialization: `Task.to_dict` / `Task.from_dict`

A JSON task record is modelled with one optional field per key the code
reads: `none` stands for an absent key (and, where the code uses
`data.get(...)`, equivalently a `null` value). -/

structure TaskRecord where
  id : Option Int
  title : Option String
  description : Option String
  category : Option String
  priority : Option String
  status : Option String
  created_at : Option String
  updated_at : Option String
  due_date : Option String
  completed_at : Option String
deriving DecidableEq

def Task.to_dict (t : Task) : TaskRecord :=
  { id := t.id,
    title := some t.title,
    description := some t.description,
    category := some t.category,
    priority := some t.priority.value,
    status := some t.status.value,
    created_at := some t.created_at.isoformat,
    updated_at := some t.updated_at.isoformat,
    due_date := t.due_date.map DateTime.isoformat,
    completed_at := t.completed_at.map DateTime.isoformat }

/-- The two uncaught-by-`load_tasks` vs caught error classes raised inside
`Task.from_dict`: `KeyError` (missing required key) and `ValueError`
(malformed enum label or timestamp). -/
inductive PyErr
  | keyError
  | valueError
deriving DecidableEq

/-- Python truthiness of `data.get(k)` for an optional string: false for an
absent key (or `null`) and for the empty string. -/
def truthyStr : Option String → Bool
  | none => false
  | some s => !(s.data.isEmpty)

/-- `Task.from_dict`, with each Python exception made explicit: `data['k']`
on a missing key is a `KeyError`; enum lookup and `fromisoformat` on a
malformed string are `ValueError`s. -/
def Task.from_dict (r : TaskRecord) : Except PyErr Task := do
  let title ← match r.title with
    | some t => Except.ok t
    | none => Except.error PyErr.keyError
  let description := r.description.getD ""
  let category := r.category.getD "General"
  let priority ← match Priority.ofValue (r.priority.getD "Medium") with
    | some p => Except.ok p
    | none => Except.error PyErr.valueError
  let status ← match Status.ofValue (r.status.getD "Pending") with
    | some st => Except.ok st
    | none => Except.error PyErr.valueError
  let created_at ← match r.created_at with
    | none => Except.error PyErr.keyError
    | some s =>
      match fromisoformat s with
      | some d => Except.ok d
      | none => Except.error PyErr.valueError
  let updated_at ← match r.updated_at with
    | none => Except.error PyErr.keyError
    | some s =>
      match fromisoformat s with
      | some d => Except.ok d
      | none => Except.error PyErr.valueError
  let due_date ← if truthyStr r.due_date then
      match fromisoformat (r.due_date.getD "") with
      | some d => Except.ok (some d)
      | none => Except.error PyErr.valueError
    else Except.ok (none : Option DateTime)
  let completed_at ← if truthyStr r.completed_at then
      match fromisoformat (r.completed_at.getD "") with
      | some d => Except.ok (some d)
      | none => Except.error PyErr.valueError
    else Except.ok (none : Option DateTime)
  Except.ok (
    { id := r.id, title := title, description := description, category := category,
      priority := priority, status := status, created_at := created_at,
      updated_at := updated_at, due_date := due_date, completed_at := completed_at } : Task)

theorem isoformat_data_not_empty (d : DateTime) :
    (DateTime.isoformat d).data.isEmpty = false := by
  unfold DateTime.isoformat DateTime.isoformatChars
  rw [padNat_four]
  simp [List.isEmpty]

theorem from_dict_to_dict (t : Task)
    (hc : t.created_at.Valid) (hu : t.updated_at.Valid)
    (hd : ∀ d, t.due_date = some d → d.Valid)
    (hp : ∀ d, t.completed_at = some d → d.Valid) :
    Task.from_dict t.to_dict = Except.ok t := by
  obtain ⟨tid, ttl, tds, tct, tpr, tst, tca, tua, tdue, tcmp⟩ := t
  simp only at hc hu hd hp
  have ec := fromisoformat_isoformat tca hc
  have eu := fromisoformat_isoformat tua hu
  rcases tdue with _ | ddt <;> rcases tcmp with _ | cdt
  · simp [Task.from_dict, Task.to_dict, Option.getD_some, Option.map_none,
      Priority.ofValue_value, Status.ofValue_value_self, ec, eu, truthyStr, bind, Except.bind]
  · have h2 := fromisoformat_isoformat cdt (hp cdt rfl)
    simp [Task.from_dict, Task.to_dict, Option.getD_some, Option.map_none, Option.map_some,
      Priority.ofValue_value, Status.ofValue_value_self, ec, eu, h2, truthyStr,
      isoformat_data_not_empty, bind, Except.bind]
  · have h1 := fromisoformat_isoformat ddt (hd ddt rfl)
    simp [Task.from_dict, Task.to_dict, Option.getD_some, Option.map_none, Option.map_some,
      Priority.ofValue_value, Status.ofValue_value_self, ec, eu, h1, truthyStr,
      isoformat_data_not_empty, bind, Except.bind]
  · have h1 := fromisoformat_isoformat ddt (hd ddt rfl)
    have h2 := fromisoformat_isoformat cdt (hp cdt rfl)
    simp [Task.from_dict, Task.to_dict, Option.getD_some, Option.map_none, Option.map_some,
      Priority.ofValue_value, Status.ofValue_value_self, ec, eu, h1, h2, truthyStr,
      isoformat_data_not_empty, bind, Except.bind]

/-! ### The `TaskManager` store

`save_tasks` writes `{'tasks': [...to_dict...], 'next_id': next_id}` to the
persistence target; the model records the last written document in
`last_save`.  Each mutating operation is a pure function returning the new
manager state (and the operation's return value). -/

structure SaveData where
  tasks : List TaskRecord
  next_id : Int
deriving DecidableEq

structure TaskManager where
  tasks : List Task
  next_id : Int
  last_save : Option SaveData
deriving DecidableEq

def TaskManager.save_tasks (m : TaskManager) : TaskManager :=
  { m with
    last_save := some { tasks := m.tasks.map Task.to_dict, next_id := m.next_id } }

/-- The store as `TaskManager.__init__` builds it before `load_tasks` runs:
no tasks, `next_id = 1`. -/
def emptyManager : TaskManager := { tasks := [], next_id := 1, last_save := none }

/-! #### Loading

The persisted file as `load_tasks` observes it: absent, unparseable JSON
(`json.JSONDecodeError`), or a parsed document with optional `tasks` and
`next_id` keys.  `load_tasks` catches `JSONDecodeError`, `KeyError` and
`FileNotFoundError` — printing the error and resetting to an empty store —
but nothing else, so a `ValueError` from `Task.from_dict` escapes to the
caller (`raised`). -/

structure StoreDoc where
  tasks : Option (List TaskRecord)
  next_id : Option Int
deriving DecidableEq

inductive FileContent
  | absent
  | unparseable
  | parsed (doc : StoreDoc)
deriving DecidableEq

inductive LoadOutcome
  | ok (tasks : List Task) (next_id : Int) (reported : Bool)
  | raised (e : PyErr)
deriving DecidableEq

/-- The list comprehension `[Task.from_dict(d) for d in data['tasks']]`:
left to right, first exception wins. -/
def fromDictList : List TaskRecord → Except PyErr (List Task)
  | [] => Except.ok []
  | r :: rs =>
    match Task.from_dict r with
    | Except.error e => Except.error e
    | Except.ok t =>
      match fromDictList rs with
      | Except.error e => Except.error e
      | Except.ok ts => Except.ok (t :: ts)

def load_tasks : FileContent → LoadOutcome
  | .absent => .ok [] 1 false
  | .unparseable => .ok [] 1 true
  | .parsed doc =>
    match doc.tasks with
    | none => .ok [] 1 true
    | some rs =>
      match fromDictList rs with
      | .error .keyError => .ok [] 1 true
      | .error .valueError => .raised .valueError
      | .ok ts => .ok ts (doc.next_id.getD 1) false

/-- `TaskManager(filename)` seen from outside: the constructed store, or
`none` when the constructor propagates an exception. -/
def TaskManager.ofFile (f : FileContent) : Option TaskManager :=
  match load_tasks f with
  | .ok ts n _ => some { tasks := ts, next_id := n, last_save := none }
  | .raised _ => none

/-! #### Mutating and querying operations -/

def TaskManager.add_task (m : TaskManager) (title description category : String)
    (priority : Priority) (due_date : Option String) (now : DateTime) :
    TaskManager × Task :=
  let t0 := Task.init title description category priority due_date now
  let t := { t0 with id := some m.next_id }
  let m1 := { m with tasks := m.tasks ++ [t], next_id := m.next_id + 1 }
  (m1.save_tasks, t)

/-- Linear scan for the first task with the given id. -/
def TaskManager.get_task (m : TaskManager) (task_id : Int) : Option Task :=
  m.tasks.find? (fun t => t.id = some task_id)

/-- `update_task_status` mutates the task object `get_task` found: the first
task in store order whose id matches. -/
def updateFirstById (task_id : Int) (new_status : Status) (now : DateTime) :
    List Task → List Task
  | [] => []
  | t :: ts =>
    if t.id = some task_id then Task.update_status t new_status now :: ts
    else t :: updateFirstById task_id new_status now ts

def TaskManager.update_task_status (m : TaskManager) (task_id : Int)
    (new_status : Status) (now : DateTime) : TaskManager × Bool :=
  match m.get_task task_id with
  | some _ =>
    (TaskManager.save_tasks
      { m with tasks := updateFirstById task_id new_status now m.tasks }, true)
  | none => (m, false)

/-- `delete_task` removes the task object `get_task` found (Python
`list.remove` with default object identity): the first id match. -/
def TaskManager.delete_task (m : TaskManager) (task_id : Int) :
    TaskManager × Bool :=
  match m.get_task task_id with
  | some _ =>
    (TaskManager.save_tasks
      { m with tasks := m.tasks.eraseP (fun t => t.id = some task_id) }, true)
  | none => (m, false)

def TaskManager.get_tasks_by_status (m : TaskManager) (status : Status) : List Task :=
  m.tasks.filter (fun t => t.status = status)

/-- Python `str.lower` restricted to its ASCII action (the characters the
claims exercise). -/
def lowerChar (c : Char) : Char :=
  if 65 ≤ c.toNat && c.toNat ≤ 90 then Char.ofNat (c.toNat + 32) else c

def lowerStr (s : String) : String := String.mk (s.data.map lowerChar)

def TaskManager.get_tasks_by_category (m : TaskManager) (category : String) : List Task :=
  m.tasks.filter (fun t => lowerStr t.category = lowerStr category)

def TaskManager.get_overdue_tasks (m : TaskManager) (now : DateTime) : List Task :=
  m.tasks.filter (fun t => t.is_overdue now)

/-- `list(set(task.category for task in self.tasks))`: the distinct category
labels (exact string identity); the model fixes first-occurrence order for
the unordered Python set. -/
def TaskManager.get_categories (m : TaskManager) : List String :=
  (m.tasks.map (fun t => t.category)).dedup

structure Stats where
  total : Nat
  completed : Nat
  pending : Nat
  in_progress : Nat
  overdue : Nat
  completion_rate : Rat
deriving DecidableEq

def TaskManager.get_statistics (m : TaskManager) (now : DateTime) : Stats :=
  let total := m.tasks.length
  let completed := (m.tasks.filter (fun t => t.status = Status.completed)).length
  let pending := (m.tasks.filter (fun t => t.status = Status.pending)).length
  let in_progress := (m.tasks.filter (fun t => t.status = Status.in_progress)).length
  let overdue := (m.get_overdue_tasks now).length
  { total := total, completed := completed, pending := pending, in_progress := in_progress,
    overdue := overdue,
    completion_rate := if total > 0 then (completed : Rat) / (total : Rat) * 100 else 0 }

/-! ### The full-listing sort used by `view_all_tasks`

`sorted(tasks, key=lambda t: (t.priority.value, t.due_date or datetime.max))`:
ascending, stable, comparing key tuples lexicographically — the *label
string* of the priority first (by code point, the model of Python string
comparison), then the due date with a missing due date replaced by
`datetime.max`.  Python's sort is stable, so any stable sort computes the
same list; the model uses insertion sort. -/

/-- Python string `<`: code-point lexicographic. -/
def charsLt : List Char → List Char → Bool
  | _, [] => false
  | [], _ :: _ => true
  | a :: as, b :: bs =>
    decide (a.toNat < b.toNat) || (decide (a.toNat = b.toNat) && charsLt as bs)

/-- `t.due_date or datetime.max`. -/
def sortKeyDate (t : Task) : DateTime := t.due_date.getD dtMax

/-- Key-tuple comparison `key a <= key b`. -/
def taskSortLe (a b : Task) : Bool :=
  charsLt a.priority.value.data b.priority.value.data ||
    (a.priority.value = b.priority.value && DateTime.leb (sortKeyDate a) (sortKeyDate b))

/-- Position of each priority in the code-point order of the label strings:
High < Low < Medium < Urgent (NOT severity order). -/
def priorityLabelRank : Priority → Nat
  | .high => 0
  | .low => 1
  | .medium => 2
  | .urgent => 3

theorem charsLt_value (p q : Priority) :
    charsLt p.value.data q.value.data = decide (priorityLabelRank p < priorityLabelRank q) := by
  cases p <;> cases q <;> decide

theorem Priority.value_inj (p q : Priority) : p.value = q.value ↔ p = q := by
  cases p <;> cases q <;> simp [Priority.value]

def taskOrder (a b : Task) : Prop := taskSortLe a b = true

instance : DecidableRel taskOrder := fun a b => by
  unfold taskOrder
  infer_instance

theorem taskSortLe_total (a b : Task) : taskSortLe a b = true ∨ taskSortLe b a = true := by
  unfold taskSortLe
  rw [charsLt_value, charsLt_value]
  by_cases h : a.priority = b.priority
  · rw [h]
    rcases DateTime.leb_total (sortKeyDate a) (sortKeyDate b) with hl | hl
    · left
      simp [hl]
    · right
      simp [hl]
  · have hr : priorityLabelRank a.priority ≠ priorityLabelRank b.priority := by
      cases ha : a.priority <;> cases hb : b.priority <;>
        simp_all [priorityLabelRank]
    rcases Nat.lt_or_ge (priorityLabelRank a.priority) (priorityLabelRank b.priority) with hlt | hge
    · left
      simp [hlt]
    · right
      have : priorityLabelRank b.priority < priorityLabelRank a.priority := by omega
      simp [this]

theorem taskSortLe_trans (a b c : Task) (h1 : taskSortLe a b = true)
    (h2 : taskSortLe b c = true) : taskSortLe a c = true := by
  unfold taskSortLe at h1 h2 ⊢
  rw [charsLt_value] at h1 h2 ⊢
  simp only [Bool.or_eq_true, Bool.and_eq_true, decide_eq_true_eq] at h1 h2 ⊢
  rcases h1 with h1 | ⟨hv1, hl1⟩
  · rcases h2 with h2 | ⟨hv2, hl2⟩
    · left
      omega
    · have hbc : b.priority = c.priority := (Priority.value_inj b.priority c.priority).mp hv2
      left
      rw [← hbc]
      exact h1
  · have hab : a.priority = b.priority := (Priority.value_inj a.priority b.priority).mp hv1
    rcases h2 with h2 | ⟨hv2, hl2⟩
    · left
      rw [hab]
      exact h2
    · right
      have hbc : b.priority = c.priority := (Priority.value_inj b.priority c.priority).mp hv2
      constructor
      · rw [hab, hbc]
      · exact DateTime.leb_trans _ _ _ hl1 hl2

instance : IsTotal Task taskOrder := ⟨fun a b => taskSortLe_total a b⟩

instance : IsTrans Task taskOrder :=
  ⟨fun a b c h1 h2 => taskSortLe_trans a b c h1 h2⟩

/-- The sorted listing produced inside `view_all_tasks`. -/
def view_all_tasks_sorted (m : TaskManager) : List Task :=
  List.insertionSort taskOrder m.tasks

/-! ### Reachable stores: sequences of Adds and Deletes from an empty store -/

theorem save_tasks_tasks (m : TaskManager) : m.save_tasks.tasks = m.tasks := rfl

theorem save_tasks_next_id (m : TaskManager) : m.save_tasks.next_id = m.next_id := rfl

/-- `Reach m ids`: the store `m` is reachable from the empty store by Adds
and Deletes, and `ids` is the sequence of ids issued by the Adds so far, in
order. -/
inductive Reach : TaskManager → List Int → Prop
  | init : Reach emptyManager []
  | add (m : TaskManager) (ids : List Int) (title description category : String)
      (priority : Priority) (due_date : Option String) (now : DateTime) :
      Reach m ids →
      Reach (m.add_task title description category priority due_date now).1
        (ids ++ [m.next_id])
  | del (m : TaskManager) (ids : List Int) (task_id : Int) :
      Reach m ids → Reach (m.delete_task task_id).1 ids

theorem reach_invariant (m : TaskManager) (ids : List Int) (h : Reach m ids) :
    1 ≤ m.next_id ∧
    ids.Pairwise (· < ·) ∧
    (∀ i ∈ ids, 0 < i ∧ i < m.next_id) ∧
    (∀ t ∈ m.tasks, ∃ i, t.id = some i ∧ i ∈ ids) ∧
    (m.tasks.map Task.id).Nodup := by
  induction h with
  | init =>
    refine ⟨by norm_num [emptyManager], ?_, ?_, ?_, ?_⟩ <;> simp [emptyManager]
  | add m ids title description category priority due_date now hr ih =>
    obtain ⟨ih1, ih2, ih3, ih4, ih5⟩ := ih
    unfold TaskManager.add_task
    simp only [save_tasks_tasks, save_tasks_next_id]
    refine ⟨by omega, ?_, ?_, ?_, ?_⟩
    · rw [List.pairwise_append]
      refine ⟨ih2, List.pairwise_singleton _ _, ?_⟩
      intro a ha b hb
      rw [List.mem_singleton] at hb
      subst hb
      exact (ih3 a ha).2
    · intro i hi
      rw [List.mem_append, List.mem_singleton] at hi
      rcases hi with hi | rfl
      · have := ih3 i hi
        omega
      · omega
    · intro t ht
      rw [List.mem_append, List.mem_singleton] at ht
      rcases ht with ht | rfl
      · obtain ⟨i, hi1, hi2⟩ := ih4 t ht
        exact ⟨i, hi1, by rw [List.mem_append]; left; exact hi2⟩
      · exact ⟨m.next_id, rfl, by rw [List.mem_append, List.mem_singleton]; right; rfl⟩
    · rw [List.map_append, List.map_singleton]
      rw [List.nodup_append]
      refine ⟨ih5, List.nodup_singleton _, ?_⟩
      intro x hx
      rw [List.mem_map] at hx
      obtain ⟨t, ht, rfl⟩ := hx
      rw [List.mem_singleton]
      obtain ⟨i, hi1, hi2⟩ := ih4 t ht
      rw [hi1]
      intro hcontra
      have := ih3 i hi2
      have : i = m.next_id := by
        have := Option.some.inj hcontra
        exact this
      omega
  | del m ids task_id hr ih =>
    obtain ⟨ih1, ih2, ih3, ih4, ih5⟩ := ih
    unfold TaskManager.delete_task
    cases hf : m.get_task task_id with
    | none => exact ⟨ih1, ih2, ih3, ih4, ih5⟩
    | some t0 =>
      simp only [save_tasks_tasks, save_tasks_next_id]
      have hsub : List.Sublist (m.tasks.eraseP (fun t => decide (t.id = some task_id)))
          m.tasks :=
        List.eraseP_sublist _
      refine ⟨ih1, ih2, ih3, ?_, ?_⟩
      · intro t ht
        exact ih4 t (hsub.mem ht)
      · exact (hsub.map Task.id).nodup ih5

/-! ### Concrete fixtures used by witnesses -/

def wNow : DateTime := ⟨2024, 5, 17, 12, 0, 0, 0⟩

def wTask : Task :=
  { id := some 1, title := "Buy milk", description := "", category := "General",
    priority := Priority.medium, status := Status.pending, created_at := wNow,
    updated_at := wNow, due_date := none, completed_at := none }

/-! ### Claim theorems -/

/-- C4: `TransitionStatus(newStatus)` sets the status to `newStatus` and
refreshes `updatedAt`; it sets `completedAt` iff the new status is
Completed, leaving `completedAt` (and every other field) unchanged on any
transition to a non-Completed status, including away from Completed.  No
transition is rejected: `update_status` is a total function defined for
every task and every status. -/
theorem update_status_spec (t : Task) (s : Status) (now : DateTime) :
    (t.update_status s now).status = s ∧
    (t.update_status s now).updated_at = now ∧
    (s = Status.completed → (t.update_status s now).completed_at = some now) ∧
    (s ≠ Status.completed → (t.update_status s now).completed_at = t.completed_at) ∧
    (t.update_status s now).id = t.id ∧
    (t.update_status s now).title = t.title ∧
    (t.update_status s now).description = t.description ∧
    (t.update_status s now).category = t.category ∧
    (t.update_status s now).priority = t.priority ∧
    (t.update_status s now).created_at = t.created_at ∧
    (t.update_status s now).due_date = t.due_date := by
  unfold Task.update_status
  refine ⟨rfl, rfl, ?_, ?_, rfl, rfl, rfl, rfl, rfl, rfl, rfl⟩
  · intro hs
    simp [hs]
  · intro hs
    simp [hs]

/-- Witness for C4 at a concrete task: transitioning to Completed stamps
`completedAt`; transitioning to InProgress leaves it untouched. -/
theorem update_status_spec_witness :
    (wTask.update_status Status.completed wNow).completed_at = some wNow ∧
    (wTask.update_status Status.in_progress wNow).completed_at = wTask.completed_at ∧
    (wTask.update_status Status.in_progress wNow).status = Status.in_progress :=
  ⟨(update_status_spec wTask Status.completed wNow).2.2.1 rfl,
   (update_status_spec wTask Status.in_progress wNow).2.2.2.1 (by decide),
   (update_status_spec wTask Status.in_progress wNow).1⟩

theorem get_task_eq_none_iff (m : TaskManager) (i : Int) :
    m.get_task i = none ↔ ¬ ∃ t ∈ m.tasks, t.id = some i := by
  unfold TaskManager.get_task
  rw [List.find?_eq_none]
  simp

/-- C5: `UpdateStatus(id, s)` and `Delete(id)` return `true` and persist
(the serialized new store is written to the persistence target) iff a task
with that id exists; otherwise they return `false` and leave the store —
task sequence, `nextId`, and the persisted document — completely
unchanged.  Both are total functions: no exception escapes. -/
theorem update_delete_by_id_spec (m : TaskManager) (i : Int) (s : Status) (now : DateTime) :
    ((m.update_task_status i s now).2 = true ↔ ∃ t ∈ m.tasks, t.id = some i) ∧
    ((m.delete_task i).2 = true ↔ ∃ t ∈ m.tasks, t.id = some i) ∧
    ((¬ ∃ t ∈ m.tasks, t.id = some i) → m.update_task_status i s now = (m, false)) ∧
    ((¬ ∃ t ∈ m.tasks, t.id = some i) → m.delete_task i = (m, false)) ∧
    ((∃ t ∈ m.tasks, t.id = some i) →
      (m.update_task_status i s now).1.last_save =
        some { tasks := (m.update_task_status i s now).1.tasks.map Task.to_dict,
               next_id := (m.update_task_status i s now).1.next_id } ∧
      (m.delete_task i).1.last_save =
        some { tasks := (m.delete_task i).1.tasks.map Task.to_dict,
               next_id := (m.delete_task i).1.next_id }) := by
  by_cases hex : ∃ t ∈ m.tasks, t.id = some i
  · have hne : m.get_task i ≠ none :=
      fun hn => ((get_task_eq_none_iff m i).mp hn) hex
    rcases hf : m.get_task i with _ | t0
    · exact absurd hf hne
    · unfold TaskManager.update_task_status TaskManager.delete_task
      rw [hf]
      refine ⟨by simp [hex], by simp [hex], by intro hc; exact absurd hex hc,
        by intro hc; exact absurd hex hc, fun _ => ⟨rfl, rfl⟩⟩
  · have hn : m.get_task i = none := (get_task_eq_none_iff m i).mpr hex
    unfold TaskManager.update_task_status TaskManager.delete_task
    rw [hn]
    refine ⟨by simp [hex], by simp [hex], fun _ => rfl, fun _ => rfl, fun hc => absurd hc hex⟩

/-- Witness for C5 at a concrete store: id 1 exists (update returns true
and persists; delete returns true), id 7 does not (both return false and
leave the store untouched). -/
theorem update_delete_by_id_spec_witness :
    ((⟨[wTask], 2, none⟩ : TaskManager).update_task_status 1 Status.completed wNow).2 = true ∧
    ((⟨[wTask], 2, none⟩ : TaskManager).delete_task 7 = (⟨[wTask], 2, none⟩, false)) := by
  constructor
  · exact (update_delete_by_id_spec ⟨[wTask], 2, none⟩ 1 Status.completed wNow).1.mpr
      ⟨wTask, by decide, by decide⟩
  · exact (update_delete_by_id_spec ⟨[wTask], 2, none⟩ 7 Status.completed wNow).2.2.2.1
      (by decide)

/-- C6: `ParseDate` behaves as "try `%Y-%m-%d`, then `%d/%m/%Y`" — for every
input string it returns exactly the first format's result when that parse
succeeds and otherwise the second format's result, returning `none` (never
raising) when both fail or when the text is `None`/empty; the two sample
forms denote the same calendar date and `"not-a-date"` parses to `none`. -/
theorem parse_date_spec :
    (∀ s : String, parse_date s = (strptime_Ymd s).orElse (fun _ => strptime_dmY s)) ∧
    parse_date "2024-03-15" = some ⟨2024, 3, 15, 0, 0, 0, 0⟩ ∧
    parse_date "15/03/2024" = some ⟨2024, 3, 15, 0, 0, 0, 0⟩ ∧
    parse_date "not-a-date" = none ∧
    parseDateField none = none ∧
    parseDateField (some "") = none :=
  ⟨parse_date_eq_orElse, by decide, by decide, by decide, rfl, by decide⟩

/-- C8: `Statistics` returns the store size, the per-status counts, the
count of overdue tasks, and `completed/total*100` as the completion rate —
with rate 0 (not a division fault) on an empty store. -/
theorem get_statistics_spec (m : TaskManager) (now : DateTime) :
    (m.get_statistics now).total = m.tasks.length ∧
    (m.get_statistics now).completed = m.tasks.countP (fun t => t.status = Status.completed) ∧
    (m.get_statistics now).pending = m.tasks.countP (fun t => t.status = Status.pending) ∧
    (m.get_statistics now).in_progress =
      m.tasks.countP (fun t => t.status = Status.in_progress) ∧
    (m.get_statistics now).overdue = m.tasks.countP (fun t => t.is_overdue now) ∧
    (m.get_statistics now).completion_rate =
      (if m.tasks.length = 0 then 0 else
        (m.tasks.countP (fun t => t.status = Status.completed) : Rat)
          / (m.tasks.length : Rat) * 100) ∧
    (emptyManager.get_statistics now).total = 0 ∧
    (emptyManager.get_statistics now).completion_rate = 0 := by
  unfold TaskManager.get_statistics TaskManager.get_overdue_tasks
  refine ⟨rfl, ?_, ?_, ?_, ?_, ?_, rfl, rfl⟩
  · rw [List.countP_eq_length_filter]
  · rw [List.countP_eq_length_filter]
  · rw [List.countP_eq_length_filter]
  · rw [List.countP_eq_length_filter]
  · rw [List.countP_eq_length_filter]
    by_cases h : m.tasks.length = 0
    · simp [h]
    · simp [h, Nat.pos_of_ne_zero h]

/-- C2: Serialize→Deserialize round trip.  For every Task whose timestamps
are datetimes Python can represent (`DateTime.Valid` is exactly the range
`datetime.datetime` enforces at construction), `from_dict (to_dict t)`
succeeds and reproduces `t` field for field — for all priority/status
enumeration values and every combination of present/absent due date and
completion timestamp. -/
theorem serialize_deserialize_roundtrip (t : Task)
    (hc : t.created_at.Valid) (hu : t.updated_at.Valid)
    (hd : ∀ d, t.due_date = some d → d.Valid)
    (hp : ∀ d, t.completed_at = some d → d.Valid) :
    Task.from_dict t.to_dict = Except.ok t :=
  from_dict_to_dict t hc hu hd hp

/-- Witness for C2: the round trip at a concrete task carrying every
optional field. -/
theorem serialize_deserialize_roundtrip_witness :
    Task.from_dict (Task.to_dict
      { id := some 3, title := "t", description := "d", category := "Work",
        priority := Priority.urgent, status := Status.completed,
        created_at := ⟨2024, 2, 29, 23, 59, 59, 123456⟩,
        updated_at := ⟨2024, 5, 17, 12, 0, 0, 0⟩,
        due_date := some ⟨2025, 12, 31, 0, 0, 0, 0⟩,
        completed_at := some ⟨2024, 5, 17, 12, 0, 0, 1⟩ }) =
      Except.ok
      { id := some 3, title := "t", description := "d", category := "Work",
        priority := Priority.urgent, status := Status.completed,
        created_at := ⟨2024, 2, 29, 23, 59, 59, 123456⟩,
        updated_at := ⟨2024, 5, 17, 12, 0, 0, 0⟩,
        due_date := some ⟨2025, 12, 31, 0, 0, 0, 0⟩,
        completed_at := some ⟨2024, 5, 17, 12, 0, 0, 1⟩ } :=
  serialize_deserialize_roundtrip _ (by decide) (by decide)
    (fun d hd => by
      rw [Option.some.inj hd.symm]
      decide)
    (fun d hd => by
      rw [Option.some.inj hd.symm]
      decide)

/-- A task record with every key absent (`from_dict` raises `KeyError` on
`data['title']`). -/
def emptyRecord : TaskRecord :=
  { id := none, title := none, description := none, category := none, priority := none,
    status := none, created_at := none, updated_at := none, due_date := none,
    completed_at := none }

/-- A persisted task record whose `priority` label is not a member of the
enumeration (`Priority('Bogus')` raises `ValueError`). -/
def badPriorityRecord : TaskRecord :=
  { id := some 1, title := some "x", description := none, category := none,
    priority := some "Bogus", status := none, created_at := some "2024-01-01T00:00:00",
    updated_at := some "2024-01-01T00:00:00", due_date := none, completed_at := none }

/-- C1 as stated is false: on a present document containing a task record
with a malformed enum value, Load does not recover with an empty store —
the `ValueError` raised by the enum lookup is not in `load_tasks`'s caught
exception tuple `(json.JSONDecodeError, KeyError, FileNotFoundError)` and
propagates to the caller. -/
theorem load_tasks_malformed_enum_raises :
    load_tasks (FileContent.parsed ⟨some [badPriorityRecord], some 5⟩) =
      LoadOutcome.raised PyErr.valueError ∧
    load_tasks (FileContent.parsed ⟨some [badPriorityRecord], some 5⟩) ≠
      LoadOutcome.ok [] 1 true := by
  constructor
  · decide
  · decide

/-- C1 amended: Load recovers — reporting the condition and yielding an
empty store with `nextId = 1` — from an unparseable file, from a document
missing the `tasks` key, and from task records missing a required key
(`KeyError`); but a record with a malformed enum or timestamp value raises
an uncaught `ValueError` that propagates to the caller.  (An absent file
also yields the empty store, without a report.) -/
theorem load_tasks_recovery_spec :
    load_tasks FileContent.unparseable = LoadOutcome.ok [] 1 true ∧
    (∀ doc : StoreDoc, doc.tasks = none →
      load_tasks (FileContent.parsed doc) = LoadOutcome.ok [] 1 true) ∧
    (∀ (doc : StoreDoc) (rs : List TaskRecord), doc.tasks = some rs →
      fromDictList rs = Except.error PyErr.keyError →
      load_tasks (FileContent.parsed doc) = LoadOutcome.ok [] 1 true) ∧
    (∀ (doc : StoreDoc) (rs : List TaskRecord), doc.tasks = some rs →
      fromDictList rs = Except.error PyErr.valueError →
      load_tasks (FileContent.parsed doc) = LoadOutcome.raised PyErr.valueError) ∧
    load_tasks FileContent.absent = LoadOutcome.ok [] 1 false := by
  refine ⟨rfl, ?_, ?_, ?_, rfl⟩
  · intro doc h
    simp only [load_tasks, h]
  · intro doc rs h hf
    simp only [load_tasks, h, hf]
  · intro doc rs h hf
    simp only [load_tasks, h, hf]

/-- Witness for the amended C1: a document lacking the `tasks` key and a
document whose only record is missing `title` both recover to the empty
store with a report. -/
theorem load_tasks_recovery_spec_witness :
    load_tasks (FileContent.parsed ⟨none, some 9⟩) = LoadOutcome.ok [] 1 true ∧
    load_tasks (FileContent.parsed ⟨some [emptyRecord], none⟩) = LoadOutcome.ok [] 1 true :=
  ⟨load_tasks_recovery_spec.2.1 ⟨none, some 9⟩ rfl,
   load_tasks_recovery_spec.2.2.1 ⟨some [emptyRecord], none⟩ [emptyRecord] rfl rfl⟩

/-- C9: a well-formed document with a `tasks` array but no `next_id` key
loads successfully with `nextId = data.get('next_id', 1) = 1`, whatever ids
the loaded tasks carry; the next Add then assigns id `1`, which can equal
the id of an already-loaded task. -/
theorem load_missing_next_id_spec (doc : StoreDoc) (rs : List TaskRecord) (ts : List Task)
    (h1 : doc.tasks = some rs) (h2 : doc.next_id = none)
    (h3 : fromDictList rs = Except.ok ts) :
    load_tasks (FileContent.parsed doc) = LoadOutcome.ok ts 1 false ∧
    TaskManager.ofFile (FileContent.parsed doc) =
      some { tasks := ts, next_id := 1, last_save := none } ∧
    ∀ (title description category : String) (priority : Priority)
      (due_date : Option String) (now : DateTime),
      (TaskManager.add_task { tasks := ts, next_id := 1, last_save := none }
        title description category priority due_date now).2.id = some 1 := by
  have hl : load_tasks (FileContent.parsed doc) = LoadOutcome.ok ts 1 false := by
    simp only [load_tasks, h1, h3, h2, Option.getD_none]
  refine ⟨hl, ?_, ?_⟩
  · unfold TaskManager.ofFile
    rw [hl]
  · intro title description category priority due_date now
    rfl

/-- Witness for C9: loading a document that carries a task with id 1 and no
`next_id` key, then adding, issues id 1 again — a collision with the loaded
task's id. -/
theorem load_missing_next_id_spec_witness :
    load_tasks (FileContent.parsed ⟨some [Task.to_dict wTask], none⟩) =
      LoadOutcome.ok [wTask] 1 false ∧
    (TaskManager.add_task { tasks := [wTask], next_id := 1, last_save := none }
      "another" "" "General" Priority.medium none wNow).2.id = some 1 ∧
    wTask.id = some 1 := by
  have h := load_missing_next_id_spec ⟨some [Task.to_dict wTask], none⟩
    [Task.to_dict wTask] [wTask] rfl rfl rfl
  exact ⟨h.1, h.2.2 "another" "" "General" Priority.medium none wNow, rfl⟩

/-- C10: `Categories()` treats labels case-sensitively (two labels that
differ only in case are distinct entries of the returned distinct-label
list) while `FilterByCategory` matches case-insensitively (either label
selects the tasks of both). -/
theorem categories_filter_case_spec (m : TaskManager) (t1 t2 : Task)
    (h1 : t1 ∈ m.tasks) (h2 : t2 ∈ m.tasks)
    (_hne : t1.category ≠ t2.category)
    (hlow : lowerStr t1.category = lowerStr t2.category) :
    t1.category ∈ m.get_categories ∧
    t2.category ∈ m.get_categories ∧
    m.get_categories.Nodup ∧
    t1 ∈ m.get_tasks_by_category t1.category ∧
    t2 ∈ m.get_tasks_by_category t1.category ∧
    t1 ∈ m.get_tasks_by_category t2.category ∧
    t2 ∈ m.get_tasks_by_category t2.category := by
  unfold TaskManager.get_categories TaskManager.get_tasks_by_category
  refine ⟨?_, ?_, List.nodup_dedup _, ?_, ?_, ?_, ?_⟩
  · rw [List.mem_dedup]
    exact List.mem_map_of_mem _ h1
  · rw [List.mem_dedup]
    exact List.mem_map_of_mem _ h2
  · rw [List.mem_filter]
    exact ⟨h1, by simp⟩
  · rw [List.mem_filter]
    exact ⟨h2, by simp [hlow]⟩
  · rw [List.mem_filter]
    exact ⟨h1, by simp [hlow]⟩
  · rw [List.mem_filter]
    exact ⟨h2, by simp⟩

def wWork : Task := { wTask with category := "Work" }

def wwork : Task := { wTask with id := some 2, category := "work" }

/-- Witness for C10 at a concrete store holding categories `"Work"` and
`"work"`: both labels are distinct entries of `Categories()`, and filtering
by `"Work"` returns both tasks. -/
theorem categories_filter_case_spec_witness :
    "Work" ∈ (⟨[wWork, wwork], 3, none⟩ : TaskManager).get_categories ∧
    "work" ∈ (⟨[wWork, wwork], 3, none⟩ : TaskManager).get_categories ∧
    wWork ∈ (⟨[wWork, wwork], 3, none⟩ : TaskManager).get_tasks_by_category "Work" ∧
    wwork ∈ (⟨[wWork, wwork], 3, none⟩ : TaskManager).get_tasks_by_category "Work" := by
  have h := categories_filter_case_spec ⟨[wWork, wwork], 3, none⟩ wWork wwork
    (by decide) (by decide) (by decide) (by decide)
  exact ⟨h.1, h.2.1, h.2.2.2.1, h.2.2.2.2.1⟩

/-- C3: in every store reachable from the empty store by Adds and Deletes
(`Reach m ids`, where `ids` records the ids the Adds issued, in order):
each Add assigns `id = nextId` and leaves `nextId` incremented; the issued
ids are strictly increasing; every issued id is positive and below the
current `nextId` (so the next Add's id exceeds every id ever issued — ids
are never reused, even after deletion); and every id in the store is a
positive integer unique within the store. -/
theorem add_delete_id_spec (m : TaskManager) (ids : List Int) (h : Reach m ids) :
    (∀ (title description category : String) (priority : Priority)
        (due_date : Option String) (now : DateTime),
      (m.add_task title description category priority due_date now).2.id
        = some m.next_id ∧
      (m.add_task title description category priority due_date now).1.next_id
        = m.next_id + 1) ∧
    ids.Pairwise (· < ·) ∧
    (∀ i ∈ ids, 0 < i ∧ i < m.next_id) ∧
    (∀ t ∈ m.tasks, ∃ i, t.id = some i ∧ 0 < i) ∧
    (m.tasks.map Task.id).Nodup := by
  obtain ⟨h1, h2, h3, h4, h5⟩ := reach_invariant m ids h
  refine ⟨fun title description category priority due_date now => ⟨rfl, rfl⟩, h2, h3, ?_, h5⟩
  intro t ht
  obtain ⟨i, hi1, hi2⟩ := h4 t ht
  exact ⟨i, hi1, (h3 i hi2).1⟩

def wM1 : TaskManager := (emptyManager.add_task "a" "" "General" Priority.medium none wNow).1

def wM2 : TaskManager := (wM1.delete_task 1).1

def wM3 : TaskManager := (wM2.add_task "b" "" "General" Priority.medium none wNow).1

/-- Witness for C3: after Add, Delete, Add from the empty store the next
Add still assigns the current `nextId` (3 — id 1 is not reused after its
deletion), and the ids in the store are distinct. -/
theorem add_delete_id_spec_witness :
    (wM3.add_task "c" "" "General" Priority.medium none wNow).2.id = some wM3.next_id ∧
    (wM3.tasks.map Task.id).Nodup ∧
    wM3.next_id = 3 := by
  have hreach : Reach wM3 (([] ++ [emptyManager.next_id]) ++ [wM2.next_id]) :=
    Reach.add wM2 ([] ++ [emptyManager.next_id]) "b" "" "General" Priority.medium none wNow
      (Reach.del wM1 ([] ++ [emptyManager.next_id]) 1
        (Reach.add emptyManager [] "a" "" "General" Priority.medium none wNow Reach.init))
  have h := add_delete_id_spec wM3 _ hreach
  exact ⟨(h.1 "c" "" "General" Priority.medium none wNow).1, h.2.2.2.2, by decide⟩

/-! ### C7: the full-listing sort order -/

theorem natListLt_of_forall2_le (l m : List Nat) (h : List.Forall₂ (· ≤ ·) l m)
    (hne : l ≠ m) : natListLt l m = true := by
  induction h with
  | nil => exact absurd rfl hne
  | cons hab htail ih =>
    rename_i a b as bs
    rcases Nat.lt_or_ge a b with hlt | hge
    · simp [natListLt, hlt]
    · have hab2 : a = b := by omega
      subst hab2
      have hne2 : as ≠ bs := by
        intro hx
        exact hne (by rw [hx])
      simp [natListLt, ih hne2]

/-- Every valid datetime below `datetime.max` compares strictly below it. -/
theorem ltb_dtMax_of_ne (d : DateTime) (hv : d.Valid) (hne : d ≠ dtMax) :
    DateTime.ltb d dtMax = true := by
  obtain ⟨y, mo, dy, hr, mi, sec, us⟩ := d
  simp only [DateTime.Valid] at hv
  obtain ⟨h1, h2, h3, h4, h5, h6, h7, h8, h9, h10⟩ := hv
  have hdy : dy ≤ 31 := le_trans h6 (daysInMonth_le y mo)
  apply natListLt_of_forall2_le
  · unfold DateTime.toList dtMax
    exact List.Forall₂.cons h2 (List.Forall₂.cons h4 (List.Forall₂.cons hdy
      (List.Forall₂.cons h7 (List.Forall₂.cons h8 (List.Forall₂.cons h9
        (List.Forall₂.cons h10 List.Forall₂.nil))))))
  · intro hx
    apply hne
    unfold DateTime.toList dtMax at hx
    simp only [List.cons.injEq, and_true] at hx
    obtain ⟨e1, e2, e3, e4, e5, e6, e7⟩ := hx
    rw [e1, e2, e3, e4, e5, e6, e7]
    rfl

theorem eq_dtMax_of_leb (d : DateTime) (hv : d.Valid)
    (h : DateTime.leb dtMax d = true) : d = dtMax := by
  by_contra hne
  have hlt := ltb_dtMax_of_ne d hv hne
  unfold DateTime.leb at h
  rw [hlt] at h
  exact Bool.noConfusion h

/-- C7 amended: the full-listing sort is a permutation of the store ordered
ascending by the priority's display label compared by code point ("Low"
before "Urgent" — label order, NOT severity order, since "High" < "Low" as
strings), then — within equal labels — ascending by due date where a
missing due date is replaced by `datetime.max`.  Consequently a task
without a due date sorts after every task whose due date is below
`datetime.max`; only a task whose due date equals `datetime.max` exactly
can tie with (and, by sort stability, stay in front of) one with no due
date. -/
theorem view_all_tasks_sorted_spec (m : TaskManager) :
    List.Perm (view_all_tasks_sorted m) m.tasks ∧
    (view_all_tasks_sorted m).Pairwise (fun a b =>
      (charsLt a.priority.value.data b.priority.value.data = true ∨
        a.priority.value = b.priority.value) ∧
      (a.priority.value = b.priority.value →
        DateTime.leb (sortKeyDate a) (sortKeyDate b) = true) ∧
      (a.priority.value = b.priority.value → a.due_date = none →
        ∀ d, b.due_date = some d → d.Valid → d = dtMax)) ∧
    Priority.low.value = "Low" ∧ Priority.urgent.value = "Urgent" ∧
    Priority.high.value = "High" ∧
    charsLt "Low".data "Urgent".data = true ∧
    charsLt "High".data "Low".data = true := by
  refine ⟨List.perm_insertionSort _ _, ?_, rfl, rfl, rfl, by decide, by decide⟩
  have hs : List.Sorted taskOrder (view_all_tasks_sorted m) :=
    List.sorted_insertionSort _ _
  refine hs.imp ?_
  intro a b hab
  unfold taskOrder taskSortLe at hab
  simp only [Bool.or_eq_true, Bool.and_eq_true, decide_eq_true_eq] at hab
  have h2 : a.priority.value = b.priority.value →
      DateTime.leb (sortKeyDate a) (sortKeyDate b) = true := by
    intro hv
    rcases hab with hab | ⟨_, hle⟩
    · exfalso
      rw [charsLt_value] at hab
      have hpq : a.priority = b.priority := (Priority.value_inj _ _).mp hv
      rw [hpq] at hab
      simp at hab
    · exact hle
  refine ⟨?_, h2, ?_⟩
  · rcases hab with hab | ⟨hv, _⟩
    · left
      exact hab
    · right
      exact hv
  · intro hv hnone d hd hdv
    have hle := h2 hv
    unfold sortKeyDate at hle
    rw [hnone, hd] at hle
    simp only [Option.getD_none, Option.getD_some] at hle
    exact eq_dtMax_of_leb d hdv hle

def wNoDue : Task :=
  { id := some 1, title := "no due", description := "", category := "General",
    priority := Priority.medium, status := Status.pending, created_at := wNow,
    updated_at := wNow, due_date := none, completed_at := none }

def wMaxDue : Task := { wNoDue with id := some 2, title := "max due", due_date := some dtMax }

/-- C7 as stated is false in one corner: with equal priority labels, a task
whose due date is exactly `datetime.max` ties with a task that has no due
date, so the stable sort leaves the no-due-date task in front of a
due-date-bearing one — "tasks lacking a due date sorted last" fails on this
store. -/
theorem view_all_sorted_absent_not_last :
    view_all_tasks_sorted ⟨[wNoDue, wMaxDue], 3, none⟩ = [wNoDue, wMaxDue] ∧
    wNoDue.due_date = none ∧
    wMaxDue.due_date = some dtMax ∧
    wNoDue.priority.value = wMaxDue.priority.value := by
  refine ⟨?_, rfl, rfl, rfl⟩
  decide

/-- Witness for C6: the dash form at a concrete date. -/
theorem parse_date_spec_witness :
    parse_date "2024-03-15" = some ⟨2024, 3, 15, 0, 0, 0, 0⟩ :=
  parse_date_spec.2.1

/-- Witness for C8: statistics of the empty store. -/
theorem get_statistics_spec_witness :
    (emptyManager.get_statistics wNow).total = 0 ∧
    (emptyManager.get_statistics wNow).completion_rate = 0 :=
  ⟨(get_statistics_spec emptyManager wNow).2.2.2.2.2.2.1,
   (get_statistics_spec emptyManager wNow).2.2.2.2.2.2.2⟩

/-- Witness for the amended C7 at a concrete one-task store. -/
theorem view_all_tasks_sorted_spec_witness :
    List.Perm (view_all_tasks_sorted ⟨[wWork], 2, none⟩) [wWork] ∧
    Priority.low.value = "Low" :=
  ⟨(view_all_tasks_sorted_spec ⟨[wWork], 2, none⟩).1,
   (view_all_tasks_sorted_spec ⟨[wWork], 2, none⟩).2.2.1⟩
